import Mathlib

/-!
Verification of the data-driven SVD regression pipeline
(`format_flu_data.py`, `z_score_flu.py`, `svd_flu_data.py`).

The Python programs are shallowly embedded: dataframes become lists of
records, NaN cells become `Option`, numeric cell values become `ℚ`, and
Python string operations are re-implemented on `List Char` so that all
definitions are executable.  The numerical SVD backend (sklearn/numpy) is
kept abstract: the encoding and control flow around it are modelled
exactly, while the singular vectors and values it returns enter the
statements as parameters.
-/

set_option maxRecDepth 20000

namespace FluRepo

/-! ### Python string primitives, re-implemented on `List Char` -/

/-- Characters of Python `str.strip()`: drop leading and trailing whitespace. -/
def stripChars (l : List Char) : List Char :=
  ((l.dropWhile Char.isWhitespace).reverse.dropWhile Char.isWhitespace).reverse

/-- Python `s.strip()`. -/
def pyStrip (s : String) : String := String.mk (stripChars s.data)

/-- Python `s.endswith(".0")`. -/
def endsDotZero (s : String) : Bool := s.data.reverse.take 2 = ['0', '.']

/-- Python `s[:-2]`: all characters but the last two. -/
def dropLast2 (s : String) : String := String.mk (s.data.take (s.data.length - 2))

/-- Python `str.upper()` on one character (the ASCII case, which covers the
location and national tokens): lowercase letters move down 32 code points. -/
def pyUpperChar (c : Char) : Char :=
  if 97 ≤ c.toNat ∧ c.toNat ≤ 122 then Char.ofNat (c.toNat - 32) else c

/-- Python `s.upper()`. -/
def pyUpper (s : String) : String := String.mk (s.data.map pyUpperChar)

/-- Python's test for a single digit character (the ASCII case). -/
def pyDigitChar (c : Char) : Bool := 48 ≤ c.toNat && c.toNat ≤ 57

/-- Python `s.isdigit()`: non-empty and every character a digit. -/
def pyIsDigit (s : String) : Bool := !s.data.isEmpty && s.data.all pyDigitChar

/-- Python `s.zfill(width)` on a character list: left-pad with zeros up to
`width`, inserting the padding after a leading sign character. -/
def zfillChars (l : List Char) (width : Nat) : List Char :=
  if width ≤ l.length then l
  else
    match l with
    | [] => List.replicate width '0'
    | c :: rest =>
      if c = '+' ∨ c = '-' then c :: (List.replicate (width - (rest.length + 1)) '0' ++ rest)
      else List.replicate (width - (rest.length + 1)) '0' ++ (c :: rest)

/-- Python `s.zfill(2)`, as used for location codes. -/
def zfill2 (s : String) : String := String.mk (zfillChars s.data 2)

/-- Lexicographic strict order on character lists by code point, as Python
compares strings. -/
def charsLt : List Char → List Char → Bool
  | _, [] => false
  | [], _ :: _ => true
  | a :: as, b :: bs =>
    if a.toNat < b.toNat then true
    else if b.toNat < a.toNat then false
    else charsLt as bs

/-- Python string `<`. -/
def strLtB (a b : String) : Bool := charsLt a.data b.data

/-- Ordering used by `sort_values(["season", "location"])`: lexicographic on the
(season, location) pair, each component compared as a Python string. -/
def keyLe (a b : String × String) : Prop :=
  strLtB a.1 b.1 = true ∨ (a.1 = b.1 ∧ (strLtB a.2 b.2 = true ∨ a.2 = b.2))

instance keyLe.instDecidableRel : DecidableRel keyLe := fun a b => by
  unfold keyLe
  infer_instance

/-! ### format_flu_data.py -/

/-- Function `_season_start_year` of `format_flu_data.py`:
`epiyear if epiweek >= 40 else epiyear - 1`. -/
def season_start_year (epiyear epiweek : Int) : Int :=
  if 40 ≤ epiweek then epiyear else epiyear - 1

/-- The local `s` of `normalize_location`: `str(x).strip()`, then one trailing
`".0"` removed when present. -/
def dotStripped (x : String) : String :=
  if endsDotZero (pyStrip x) then dropLast2 (pyStrip x) else pyStrip x

/-- Function `normalize_location` of `format_flu_data.py`: strip, drop one
trailing `".0"`, map the national token to `"US"`, zero-pad digit strings to
width 2, and pass anything else through. -/
def normalize_location (x : String) : String :=
  if pyUpper (dotStripped x) = "US" then "US"
  else if pyIsDigit (dotStripped x) then zfill2 (dotStripped x)
  else dotStripped x

/-! ### z_score_flu.py -/

/-- Input row of `z_score_flu.py` (the fields its logic touches); `none`
models a NaN cell. -/
structure AdmRow where
  location : Option String
  value : Option ℚ
deriving DecidableEq, Repr

/-- Row kept after the `notna` filters of `z_score_flu.py`. -/
structure ZRow where
  location : String
  value : ℚ
deriving DecidableEq, Repr

/-- The two `notna` filters of `z_score_flu.py` `main` (location non-null,
value non-null). -/
def cleanRows (rows : List AdmRow) : List ZRow :=
  rows.filterMap fun r =>
    match r.location, r.value with
    | some loc, some v => some ⟨loc, v⟩
    | _, _ => none

/-- Values of one location, as grouped by `df.groupby("location")["value"]`. -/
def locValues (rows : List ZRow) (loc : String) : List ℚ :=
  (rows.filter fun r => r.location = loc).map fun r => r.value

/-- Arithmetic mean, the `mean` aggregate. -/
def meanQ (vs : List ℚ) : ℚ := vs.sum / vs.length

/-- Output row of `z_score_flu.py`: original fields plus
`state_mean, state_std, zflu`. -/
structure ZOut where
  location : String
  value : ℚ
  state_mean : ℚ
  state_std : ℚ
  zflu : ℚ
deriving DecidableEq, Repr

/-- The z-score computation of `z_score_flu.py` `main`: merge per-location
mean/std, keep rows with `state_std > 0`, and set
`zflu = (value - state_mean) / state_std`.  The numeric `std` aggregate of
pandas is kept abstract as `stdFn` (its value is a floating-point square
root, which the claims never inspect). -/
def z_score_rows (stdFn : List ℚ → ℚ) (rows : List AdmRow) : List ZOut :=
  let d := cleanRows rows
  (d.filter fun r => decide (0 < stdFn (locValues d r.location))).map fun r =>
    let m := meanQ (locValues d r.location)
    let s := stdFn (locValues d r.location)
    ⟨r.location, r.value, m, s, (r.value - m) / s⟩

/-! ### svd_flu_data.py: build_matrix -/

/-- Input row of `build_matrix` (the columns it touches); `value` is the
resolved value column, `none` modelling a NaN cell. -/
structure SRow where
  season_week : Int
  season : String
  location : String
  value : Option ℚ
deriving DecidableEq, Repr

/-- The row preparation of `build_matrix`: keep `season_week.between(0, 32)`,
drop NaN values, then `zfill(2)` the location. -/
def prepRows (df : List SRow) : List SRow :=
  (((df.filter fun r => decide (0 ≤ r.season_week) && decide (r.season_week ≤ 32)).filter
      fun r => r.value.isSome).map
    fun r => { r with location := zfill2 r.location })

/-- Composite column key of `build_matrix`: `season + "__" + location`. -/
def colKey (season location : String) : String := season ++ "__" ++ location

/-- The `(season, location)` pair carried by each prepared row, in row order
(the columns `drop_duplicates("col_key")` operates on). -/
def colPairs (df : List SRow) : List (String × String) :=
  (prepRows df).map fun r => (r.season, r.location)

/-- Scan for `drop_duplicates("col_key")`: keep an entry when its composite
key has not been seen before. -/
def dedupScan (seen : List String) : List (String × String) → List (String × String)
  | [] => []
  | p :: ps =>
    if colKey p.1 p.2 ∈ seen then dedupScan seen ps
    else p :: dedupScan (colKey p.1 p.2 :: seen) ps

/-- Model of `drop_duplicates("col_key")`: keep the first occurrence of every
composite key, in order of first appearance. -/
def dedupByColKey (l : List (String × String)) : List (String × String) :=
  dedupScan [] l

/-- The deduplicated column entries after `sort_values(["season", "location"])`. -/
def sortedPairs (df : List SRow) : List (String × String) :=
  List.insertionSort keyLe (dedupByColKey (colPairs df))

/-- The full column map of `build_matrix` before the completeness drop:
`col_id = np.arange(len(colmap))` over the sorted distinct keys. -/
def colmapAll (df : List SRow) : List (Nat × String × String) :=
  (sortedPairs df).enum

/-- Values of all prepared rows that fall in cell `(w, key)` of the pivot. -/
def cellValues (df : List SRow) (w : Nat) (key : String) : List ℚ :=
  ((prepRows df).filter fun r =>
      colKey r.season r.location = key && r.season_week = (w : Int)).filterMap
    fun r => r.value

/-- One cell of the pivoted matrix after `reindex(range(33))`: the mean of the
observations that map to it, or a missing marker when there are none
(`pivot_table(..., aggfunc="mean")`). -/
def cell (df : List SRow) (w : Nat) (key : String) : Option ℚ :=
  let vs := cellValues df w key
  if vs.isEmpty then none else some (vs.sum / vs.length)

/-- The completeness test of `build_matrix`: `X[col].notna().all()` over the 33
reindexed rows. -/
def isCompleteCol (df : List SRow) (key : String) : Bool :=
  (List.range 33).all fun w => (cell df w key).isSome

/-- The column map restricted to retained columns
(`colmap[colmap["col_id"].isin(good_cols)]`, re-sorted by `col_id`). -/
def goodColmap (df : List SRow) : List (Nat × String × String) :=
  (colmapAll df).filter fun e => isCompleteCol df (colKey e.2.1 e.2.2)

/-- The matrix returned by `build_matrix`: for every retained column its id and
its 33 cells in `season_week` order. -/
def buildX (df : List SRow) : List (Nat × List (Option ℚ)) :=
  (goodColmap df).map fun e => (e.1, (List.range 33).map fun w => cell df w (colKey e.2.1 e.2.2))

/-! ### svd_flu_data.py: pca_svd_to_long and run_one -/

/-- A row of the long factor table: `(vector_name, vector_number1, season_week,
value)`. -/
abbrev LongRow := String × Int × Int × ℚ

/-- The flat encoding of `pca_svd_to_long`, given the factors returned by the
numerical backend: `U` indexed `[week, comp]`, `sigma` indexed `[comp]`, `V`
indexed `[col_idx, comp]`, and `colIds` the matrix column labels
(`X.columns`).  The three loops of the source are reproduced verbatim. -/
def pca_svd_to_long (nWeeks k : Nat) (colIds : List Nat)
    (U : Nat → Nat → ℚ) (sigma : Nat → ℚ) (V : Nat → Nat → ℚ) : List LongRow :=
  ((List.range k).flatMap fun comp =>
      (List.range nWeeks).map fun w => ("u", Int.ofNat comp, Int.ofNat w, U w comp))
    ++ ((List.range k).map fun comp => ("sigma", Int.ofNat comp, (-1 : Int), sigma comp))
    ++ ((List.range colIds.length).flatMap fun i =>
      (List.range k).map fun comp =>
        ("v", Int.ofNat (colIds.getD i 0), Int.ofNat comp, V i comp))

/-- The recovery `U = scores / sigma` of `pca_svd_to_long`, element-wise per
component column.  The division is total, as in the source: numpy raises no
error when a singular value is exactly zero (it emits non-finite floats; the
total `ℚ` division returns 0 there). -/
def recoverU (scores : Nat → Nat → ℚ) (sigma : Nat → ℚ) : Nat → Nat → ℚ :=
  fun w comp => scores w comp / sigma comp

/-- The body of `pca_svd_to_long` from the backend scores onward: recover `U`
by the element-wise division and encode.  There is no error path. -/
def pca_encode_from_scores (nWeeks k : Nat) (colIds : List Nat)
    (scores : Nat → Nat → ℚ) (sigma : Nat → ℚ) (V : Nat → Nat → ℚ) : List LongRow :=
  pca_svd_to_long nWeeks k colIds (recoverU scores sigma) sigma V

/-- Function `run_one` of `svd_flu_data.py` after the value column is resolved:
build the matrix, fail when fewer than 2 complete columns remain, otherwise
hand the matrix to the decomposition backend `svdFn` and return the long
table together with the column map. -/
def run_one (svdFn : List (Nat × List (Option ℚ)) → List LongRow) (df : List SRow) :
    Except String (List LongRow × List (Nat × String × String)) :=
  let X := buildX df
  if X.length < 2 then Except.error "Not enough complete columns for PCA."
  else Except.ok (svdFn X, goodColmap df)

/-! ### Concrete inputs used by witnesses and counterexamples -/

/-- A full 33-week series of observations for one (season, location) column. -/
def fullSeries (season loc : String) : List SRow :=
  (List.range 33).map fun w => ⟨Int.ofNat w, season, loc, some 1⟩

/-- Two observations landing in the same matrix cell `(3, 2023/2024__06)`. -/
def dfDup : List SRow :=
  [⟨3, "2023/2024", "06", some 1⟩, ⟨3, "2023/2024", "06", some 3⟩]

/-- One complete column plus one column observed in week 0 only. -/
def dfPartial : List SRow :=
  fullSeries "2023/2024" "06" ++ [⟨0, "2023/2024", "08", some 1⟩]

/-- Three columns; the middle one (location "06") has week 0 only. -/
def dfMiddleDrop : List SRow :=
  fullSeries "2023/2024" "04" ++ [⟨0, "2023/2024", "06", some 1⟩] ++ fullSeries "2023/2024" "08"

/-- Two complete columns. -/
def dfTwoCols : List SRow :=
  fullSeries "2023/2024" "06" ++ fullSeries "2023/2024" "08"

/-- Two distinct (season, location) pairs whose composite keys collide:
both `("s__x", "yy")` and `("s", "x__yy")` produce the key `"s__x__yy"`. -/
def dfCollide : List SRow :=
  fullSeries "s__x" "yy" ++ fullSeries "s" "x__yy"

/-- Two rows with distinct, non-colliding column keys. -/
def dfStable : List SRow :=
  [⟨0, "2023/2024", "06", some 1⟩, ⟨0, "2023/2024", "08", some 2⟩]

/-- Small admissions table for the z-score witness: location "a" has values 0
and 2, location "b" only the constant value 5. -/
def admSmall : List AdmRow :=
  [⟨some "a", some 0⟩, ⟨some "a", some 2⟩, ⟨some "b", some 5⟩, ⟨some "b", some 5⟩]

/-- Stand-in for the pandas `std` aggregate on the witness table: 0 on the
constant series of location "b", 1 elsewhere. -/
def stdSmall (vs : List ℚ) : ℚ := if vs = [5, 5] then 0 else 1

/-! ### Order facts for the sort relation -/

theorem charsLt_irrefl : ∀ l : List Char, charsLt l l = false := by
  intro l
  induction l with
  | nil => rfl
  | cons a as ih => simp [charsLt, ih]

theorem charsLt_asymm : ∀ {l₁ l₂ : List Char}, charsLt l₁ l₂ = true → charsLt l₂ l₁ = false := by
  intro l₁
  induction l₁ with
  | nil => intro l₂ h; cases l₂ <;> simp [charsLt] at h ⊢
  | cons a as ih =>
    intro l₂ h
    cases l₂ with
    | nil => simp [charsLt] at h
    | cons b bs =>
      simp only [charsLt] at h ⊢
      rcases Nat.lt_trichotomy a.toNat b.toNat with hlt | heq | hgt
      · simp [hlt, Nat.lt_asymm hlt]
      · simp only [heq, Nat.lt_irrefl, if_false] at h ⊢
        exact ih h
      · simp [hgt, Nat.lt_asymm hgt] at h

theorem charsLt_trans : ∀ {l₁ l₂ l₃ : List Char},
    charsLt l₁ l₂ = true → charsLt l₂ l₃ = true → charsLt l₁ l₃ = true := by
  intro l₁
  induction l₁ with
  | nil =>
    intro l₂ l₃ h₁ h₂
    cases l₂ with
    | nil => simp [charsLt] at h₁
    | cons b bs => cases l₃ with
      | nil => simp [charsLt] at h₂
      | cons c cs => simp [charsLt]
  | cons a as ih =>
    intro l₂ l₃ h₁ h₂
    cases l₂ with
    | nil => simp [charsLt] at h₁
    | cons b bs =>
      cases l₃ with
      | nil => simp [charsLt] at h₂
      | cons c cs =>
        simp only [charsLt] at h₁ h₂ ⊢
        rcases Nat.lt_trichotomy a.toNat b.toNat with hab | hab | hab
        · rcases Nat.lt_trichotomy b.toNat c.toNat with hbc | hbc | hbc
          · simp [Nat.lt_trans hab hbc]
          · simp [hbc ▸ hab]
          · simp [hbc, Nat.lt_asymm hbc] at h₂
        · rcases Nat.lt_trichotomy b.toNat c.toNat with hbc | hbc | hbc
          · simp [hab ▸ hbc]
          · simp only [hab, hbc, Nat.lt_irrefl, if_false] at h₁ h₂ ⊢
            exact ih h₁ h₂
          · simp [hbc, Nat.lt_asymm hbc] at h₂
        · simp [hab, Nat.lt_asymm hab] at h₁

theorem char_toNat_injective {a b : Char} (h : a.toNat = b.toNat) : a = b := by
  have := Char.ofNat_toNat a
  rw [h, Char.ofNat_toNat b] at this
  exact this.symm

theorem charsLt_connex : ∀ {l₁ l₂ : List Char},
    charsLt l₁ l₂ = false → charsLt l₂ l₁ = false → l₁ = l₂ := by
  intro l₁
  induction l₁ with
  | nil => intro l₂ h₁ _; cases l₂ with
    | nil => rfl
    | cons b bs => simp [charsLt] at h₁
  | cons a as ih =>
    intro l₂ h₁ h₂
    cases l₂ with
    | nil => simp [charsLt] at h₂
    | cons b bs =>
      simp only [charsLt] at h₁ h₂
      rcases Nat.lt_trichotomy a.toNat b.toNat with hab | hab | hab
      · simp [hab] at h₁
      · simp only [hab, Nat.lt_irrefl, if_false] at h₁ h₂
        rw [char_toNat_injective hab, ih h₁ h₂]
      · simp [hab] at h₂

theorem strLtB_connex {a b : String} (h₁ : strLtB a b = false) (h₂ : strLtB b a = false) :
    a = b :=
  String.ext (charsLt_connex h₁ h₂)

theorem strLtB_asymm {a b : String} (h : strLtB a b = true) : strLtB b a = false :=
  charsLt_asymm h

theorem strLtB_irrefl (a : String) : strLtB a a = false :=
  charsLt_irrefl a.data

instance keyLe.instIsTotal : IsTotal (String × String) keyLe := by
  constructor
  intro a b
  rcases h₁ : strLtB a.1 b.1 with _ | _
  · rcases h₂ : strLtB b.1 a.1 with _ | _
    · have hs : a.1 = b.1 := strLtB_connex h₁ h₂
      rcases h₃ : strLtB a.2 b.2 with _ | _
      · rcases h₄ : strLtB b.2 a.2 with _ | _
        · exact Or.inl (Or.inr ⟨hs, Or.inr (strLtB_connex h₃ h₄)⟩)
        · exact Or.inr (Or.inr ⟨hs.symm, Or.inl h₄⟩)
      · exact Or.inl (Or.inr ⟨hs, Or.inl h₃⟩)
    · exact Or.inr (Or.inl h₂)
  · exact Or.inl (Or.inl h₁)

instance keyLe.instIsTrans : IsTrans (String × String) keyLe := by
  constructor
  intro a b c hab hbc
  rcases hab with h₁ | ⟨e₁, h₁⟩
  · rcases hbc with h₂ | ⟨e₂, _⟩
    · exact Or.inl (charsLt_trans h₁ h₂)
    · exact Or.inl (e₂ ▸ h₁)
  · rcases hbc with h₂ | ⟨e₂, h₂⟩
    · exact Or.inl (e₁ ▸ h₂)
    · refine Or.inr ⟨e₁.trans e₂, ?_⟩
      rcases h₁ with h₁ | h₁
      · rcases h₂ with h₂ | h₂
        · exact Or.inl (charsLt_trans h₁ h₂)
        · exact Or.inl (h₂ ▸ h₁)
      · rcases h₂ with h₂ | h₂
        · exact Or.inl (h₁ ▸ h₂)
        · exact Or.inr (h₁.trans h₂)

instance keyLe.instIsAntisymm : IsAntisymm (String × String) keyLe := by
  constructor
  intro a b hab hba
  rcases hab with h₁ | ⟨e₁, h₁⟩
  · rcases hba with h₂ | ⟨e₂, _⟩
    · rw [strLtB_asymm h₁] at h₂
      exact absurd h₂ Bool.false_ne_true
    · rw [e₂, strLtB_irrefl] at h₁
      exact absurd h₁ Bool.false_ne_true
  · rcases hba with h₂ | ⟨e₂, h₂⟩
    · rw [e₁, strLtB_irrefl] at h₂
      exact absurd h₂ Bool.false_ne_true
    · rcases h₁ with h₁ | h₁
      · rcases h₂ with h₂ | h₂
        · rw [strLtB_asymm h₁] at h₂
          exact absurd h₂ Bool.false_ne_true
        · rw [h₂, strLtB_irrefl] at h₁
          exact absurd h₁ Bool.false_ne_true
      · exact Prod.ext e₁ h₁

/-! ### Behaviour of the string helpers, for the idempotence analysis -/

theorem pyUpperChar_of_digit {c : Char} (h : pyDigitChar c = true) : pyUpperChar c = c := by
  simp only [pyDigitChar, Bool.and_eq_true, decide_eq_true_eq] at h
  simp only [pyUpperChar, if_neg (by omega : ¬(97 ≤ c.toNat ∧ c.toNat ≤ 122))]

theorem pyUpper_of_isDigit {s : String} (h : pyIsDigit s = true) : pyUpper s = s := by
  simp only [pyIsDigit, Bool.and_eq_true, Bool.not_eq_true', List.all_eq_true] at h
  obtain ⟨-, hall⟩ := h
  have hmap : s.data.map pyUpperChar = s.data := by
    have h1 : s.data.map pyUpperChar = s.data.map id :=
      List.map_congr_left fun c hc => pyUpperChar_of_digit (hall c hc)
    simpa using h1
  exact String.ext hmap

theorem pyUpper_ne_US_of_isDigit {s : String} (h : pyIsDigit s = true) : pyUpper s ≠ "US" := by
  intro hUS
  rw [pyUpper_of_isDigit h] at hUS
  subst hUS
  exact absurd h (by decide)

theorem pyIsDigit_zfill2 {s : String} (h : pyIsDigit s = true) : pyIsDigit (zfill2 s) = true := by
  simp only [pyIsDigit, Bool.and_eq_true, Bool.not_eq_true', List.all_eq_true] at h ⊢
  obtain ⟨hne, hall⟩ := h
  unfold zfill2 zfillChars
  split
  · exact ⟨hne, hall⟩
  · match hs : s.data with
    | [] => rw [hs] at hne; exact absurd hne (by decide)
    | c :: rest =>
      rw [hs] at hall
      have hc : pyDigitChar c = true := hall c (List.mem_cons_self _ _)
      have hcn : ¬(c = '+' ∨ c = '-') := by
        rintro (rfl | rfl) <;> exact absurd hc (by decide)
      simp only [if_neg hcn]
      refine ⟨by simp, fun a ha => ?_⟩
      rcases List.mem_append.1 ha with ha | ha
      · rw [List.eq_of_mem_replicate ha]; decide
      · exact hall a ha

theorem zfill2_length {s : String} (h : pyIsDigit s = true) : 2 ≤ (zfill2 s).data.length := by
  simp only [pyIsDigit, Bool.and_eq_true, Bool.not_eq_true', List.all_eq_true] at h
  obtain ⟨hne, hall⟩ := h
  unfold zfill2 zfillChars
  split
  next hlen => exact hlen
  next hlen => match hs : s.data with
    | [] => rw [hs] at hne; exact absurd hne (by decide)
    | c :: rest =>
      rw [hs] at hall
      have hc : pyDigitChar c = true := hall c (List.mem_cons_self _ _)
      have hcn : ¬(c = '+' ∨ c = '-') := by
        rintro (rfl | rfl) <;> exact absurd hc (by decide)
      simp only [if_neg hcn, List.length_append, List.length_replicate, List.length_cons]
      omega

theorem zfill2_of_long {s : String} (h : 2 ≤ s.data.length) : zfill2 s = s := by
  unfold zfill2 zfillChars
  rw [if_pos h]

/-! ### Claim theorems -/

/-- C4: for every integer pair `(epi_year, epi_week)` with `epi_week` in a
valid week range, `_season_start_year` returns `epi_year` when
`epi_week ≥ 40` and `epi_year − 1` when `epi_week ≤ 39`. -/
theorem season_start_year_rule (y w : Int) (hw : 1 ≤ w ∧ w ≤ 53) :
    (40 ≤ w → season_start_year y w = y) ∧ (w ≤ 39 → season_start_year y w = y - 1) := by
  constructor
  · intro h
    simp [season_start_year, h]
  · intro h
    rw [season_start_year, if_neg (by omega)]

/-- Witness for C4 at `(epi_year, epi_week) = (2023, 40)` and `(2023, 39)`. -/
theorem season_start_year_rule_witness :
    ((40 ≤ (40 : Int) → season_start_year 2023 40 = 2023) ∧
      ((40 : Int) ≤ 39 → season_start_year 2023 40 = 2023 - 1)) ∧
    ((40 ≤ (39 : Int) → season_start_year 2023 39 = 2023) ∧
      ((39 : Int) ≤ 39 → season_start_year 2023 39 = 2023 - 1)) :=
  ⟨season_start_year_rule 2023 40 (by decide), season_start_year_rule 2023 39 (by decide)⟩

/-- C10 counterexample: `normalize_location` is not idempotent; the input
`"1.0.0"` normalizes to `"1.0"`, which normalizes again to `"01"`. -/
theorem normalize_location_not_idempotent :
    normalize_location (normalize_location "1.0.0") ≠ normalize_location "1.0.0" := by decide

/-- C10 amended: `normalize_location` is idempotent on every input whose
normalized form does not still end in `".0"` and carries no surrounding
whitespace (both escapes arise only from pathological inputs such as
`"1.0.0"`). -/
theorem normalize_location_idempotent (x : String)
    (h₁ : endsDotZero (normalize_location x) = false)
    (h₂ : pyStrip (normalize_location x) = normalize_location x) :
    normalize_location (normalize_location x) = normalize_location x := by
  have hstrip : dotStripped (normalize_location x) = normalize_location x := by
    rw [dotStripped, h₂, h₁, if_neg (by simp)]
  by_cases hUS : pyUpper (dotStripped x) = "US"
  · have hr : normalize_location x = "US" := by rw [normalize_location, if_pos hUS]
    rw [hr] at hstrip ⊢
    rw [normalize_location, hstrip, if_pos (by decide)]
  · by_cases hdig : pyIsDigit (dotStripped x) = true
    · have hr : normalize_location x = zfill2 (dotStripped x) := by
        rw [normalize_location, if_neg hUS, if_pos hdig]
      have hdig' : pyIsDigit (normalize_location x) = true := hr ▸ pyIsDigit_zfill2 hdig
      rw [normalize_location, hstrip, if_neg (pyUpper_ne_US_of_isDigit hdig'),
        if_pos hdig']
      exact zfill2_of_long (hr ▸ zfill2_length hdig)
    · have hr : normalize_location x = dotStripped x := by
        rw [normalize_location, if_neg hUS, if_neg hdig]
      rw [normalize_location, hstrip, if_neg (hr ▸ hUS), if_neg (hr ▸ hdig)]

/-- Witness for C10 amended at `x = "1.0"`: the normalized form `"01"` is a
fixed point. -/
theorem normalize_location_idempotent_witness :
    normalize_location (normalize_location "1.0") = normalize_location "1.0" :=
  normalize_location_idempotent "1.0" (by decide) (by decide)

/-- C9: in the z-score step, every row whose location has zero per-location
standard deviation of `value` is excluded from the output, and every retained
row has `zflu = (value − state_mean) / state_std` with the statistics taken
over that location's rows. -/
theorem z_score_zero_std_excluded_and_formula (stdFn : List ℚ → ℚ) (rows : List AdmRow) :
    (∀ r ∈ cleanRows rows, stdFn (locValues (cleanRows rows) r.location) = 0 →
      ∀ o ∈ z_score_rows stdFn rows, o.location ≠ r.location) ∧
    (∀ o ∈ z_score_rows stdFn rows,
      o.zflu = (o.value - o.state_mean) / o.state_std ∧
      o.state_mean = meanQ (locValues (cleanRows rows) o.location) ∧
      o.state_std = stdFn (locValues (cleanRows rows) o.location)) := by
  constructor
  · intro r hr hz o ho
    simp only [z_score_rows, List.mem_map, List.mem_filter, decide_eq_true_eq] at ho
    obtain ⟨r', ⟨hr', hstd⟩, rfl⟩ := ho
    intro heq
    have heq' : r'.location = r.location := heq
    rw [heq', hz] at hstd
    exact lt_irrefl 0 hstd
  · intro o ho
    simp only [z_score_rows, List.mem_map, List.mem_filter, decide_eq_true_eq] at ho
    obtain ⟨r', ⟨hr', hstd⟩, rfl⟩ := ho
    exact ⟨rfl, rfl, rfl⟩

/-- Witness for C9 on `admSmall` with the concrete `stdSmall` aggregate: the
zero-deviation location "b" is absent from the output. -/
theorem z_score_zero_std_excluded_witness :
    ∀ o ∈ z_score_rows stdSmall admSmall, o.location ≠ "b" :=
  (z_score_zero_std_excluded_and_formula stdSmall admSmall).1 ⟨"b", 5⟩ (by decide) (by decide)

/-- C5: when two or more observations map to the same `(season_week, column)`
cell, the pivoted cell is defined and equals the arithmetic mean of those
observations. -/
theorem cell_mean_of_duplicates (df : List SRow) (w : Nat) (key : String)
    (h2 : 2 ≤ (cellValues df w key).length) :
    cell df w key =
      some ((cellValues df w key).sum / ((cellValues df w key).length : ℚ)) := by
  have hne : (cellValues df w key).isEmpty = false := by
    cases hv : cellValues df w key
    · rw [hv] at h2
      exact absurd h2 (by decide)
    · rfl
  simp [cell, hne]

/-- Witness for C5 on `dfDup`: the two values 1 and 3 share a cell and the
cell holds their mean. -/
theorem cell_mean_of_duplicates_witness :
    2 ≤ (cellValues dfDup 3 (colKey "2023/2024" "06")).length ∧
    cell dfDup 3 (colKey "2023/2024" "06") =
      some ((cellValues dfDup 3 (colKey "2023/2024" "06")).sum /
        ((cellValues dfDup 3 (colKey "2023/2024" "06")).length : ℚ)) :=
  ⟨by decide, cell_mean_of_duplicates dfDup 3 (colKey "2023/2024" "06") (by decide)⟩

/-- C7: `run_one` fails with the insufficient-data error exactly when fewer
than 2 complete columns survive the completeness policy — before the
decomposition backend `svdFn` is consulted — and succeeds otherwise. -/
theorem run_one_insufficient_columns
    (svdFn : List (Nat × List (Option ℚ)) → List LongRow) (df : List SRow) :
    ((buildX df).length < 2 →
      run_one svdFn df = Except.error "Not enough complete columns for PCA.") ∧
    (2 ≤ (buildX df).length →
      run_one svdFn df = Except.ok (svdFn (buildX df), goodColmap df)) := by
  constructor
  · intro h
    simp only [run_one]
    rw [if_pos h]
  · intro h
    simp only [run_one]
    rw [if_neg (by omega)]

/-- Witness for C7: the empty table (0 columns) aborts, and the two-column
table `dfTwoCols` goes through to the backend. -/
theorem run_one_insufficient_columns_witness :
    run_one (fun _ => []) [] = Except.error "Not enough complete columns for PCA." ∧
    run_one (fun _ => []) dfTwoCols = Except.ok ([], goodColmap dfTwoCols) :=
  ⟨(run_one_insufficient_columns (fun _ => []) []).1 (by decide),
    (run_one_insufficient_columns (fun _ => []) dfTwoCols).2 (by decide)⟩

/-- C8: evaluation of the code at the failing input.  For a 33×2 matrix whose
two centered columns are identically zero, the backend returns component
scores 0 and both singular values exactly 0; `pca_svd_to_long` still performs
the total division `scores / sigma` and emits the complete 72-row long table
(2·33 u-rows, 2 sigma-rows, 2·2 v-rows) — there is no fatal-error path, so
the run does not fail as the specification demands. -/
theorem pca_zero_sigma_no_failure :
    (pca_encode_from_scores 33 2 [0, 1] (fun _ _ => 0) (fun _ => 0) (fun _ _ => 0)).length = 72 ∧
    ("sigma", (0 : Int), (-1 : Int), (0 : ℚ)) ∈
      pca_encode_from_scores 33 2 [0, 1] (fun _ _ => 0) (fun _ => 0) (fun _ _ => 0) := by
  constructor
  · decide
  · decide

/-- C2: every row of the long factor table is tagged "u", "sigma" or "v"; u
rows carry a component index, a week index 0..32 and `U[week, comp]`; sigma
rows carry the sentinel −1 as `season_week` and `Σ[comp]`; v rows carry a
matrix column id in `vector_number1`, the component index in the
`season_week` field, and `V[col, comp]`. -/
theorem pca_long_encoding (k : Nat) (colIds : List Nat)
    (U : Nat → Nat → ℚ) (sigma : Nat → ℚ) (V : Nat → Nat → ℚ)
    (row : LongRow) (hrow : row ∈ pca_svd_to_long 33 k colIds U sigma V) :
    (row.1 = "u" ∨ row.1 = "sigma" ∨ row.1 = "v") ∧
    (row.1 = "u" → ∃ comp < k, ∃ w < 33,
      row = ("u", Int.ofNat comp, Int.ofNat w, U w comp)) ∧
    (row.1 = "sigma" → row.2.2.1 = -1 ∧ ∃ comp < k,
      row = ("sigma", Int.ofNat comp, -1, sigma comp)) ∧
    (row.1 = "v" → ∃ i < colIds.length, ∃ comp < k,
      row = ("v", Int.ofNat (colIds.getD i 0), Int.ofNat comp, V i comp)) := by
  simp only [pca_svd_to_long, List.mem_append, List.mem_flatMap, List.mem_map,
    List.mem_range] at hrow
  rcases hrow with (⟨comp, hcomp, w, hw, rfl⟩ | ⟨comp, hcomp, rfl⟩) | ⟨i, hi, comp, hcomp, rfl⟩
  · refine ⟨Or.inl rfl, fun _ => ⟨comp, hcomp, w, hw, rfl⟩, fun h => ?_, fun h => ?_⟩
    · simp at h
    · simp at h
  · refine ⟨Or.inr (Or.inl rfl), fun h => ?_, fun _ => ⟨rfl, comp, hcomp, rfl⟩, fun h => ?_⟩
    · simp at h
    · simp at h
  · refine ⟨Or.inr (Or.inr rfl), fun h => ?_, fun h => ?_, fun _ => ⟨i, hi, comp, hcomp, rfl⟩⟩
    · simp at h
    · simp at h

/-- Witness for C2 at `k = 1`, column ids `[5]`, constant factors, applied to
the sigma row `("sigma", 0, −1, 7)` of the concrete table. -/
theorem pca_long_encoding_witness :
    ("sigma" = "u" ∨ "sigma" = "sigma" ∨ "sigma" = "v") ∧
    ("sigma" = "u" → ∃ comp < 1, ∃ w < 33,
      (("sigma", (0 : Int), (-1 : Int), (7 : ℚ)) : LongRow) =
        ("u", Int.ofNat comp, Int.ofNat w, 0)) ∧
    ("sigma" = "sigma" → (-1 : Int) = -1 ∧ ∃ comp < 1,
      (("sigma", (0 : Int), (-1 : Int), (7 : ℚ)) : LongRow) =
        ("sigma", Int.ofNat comp, -1, 7)) ∧
    ("sigma" = "v" → ∃ i < ([5] : List Nat).length, ∃ comp < 1,
      (("sigma", (0 : Int), (-1 : Int), (7 : ℚ)) : LongRow) =
        ("v", Int.ofNat (([5] : List Nat).getD i 0), Int.ofNat comp, 0)) :=
  pca_long_encoding 1 [5] (fun _ _ => 0) (fun _ => 7) (fun _ _ => 0)
    ("sigma", 0, -1, 7) (by decide)

/-- C1: completeness policy of the Matrix Builder — every column retained in
the built matrix has a defined value in all 33 `season_week` rows, and any
column whose key has a missing cell in even one of the 33 rows is entirely
absent from the output matrix. -/
theorem build_matrix_completeness (df : List SRow) :
    (∀ col ∈ buildX df, col.2.length = 33 ∧ ∀ c ∈ col.2, c.isSome = true) ∧
    (∀ key : String, (∃ w < 33, cell df w key = none) →
      ∀ e ∈ goodColmap df, colKey e.2.1 e.2.2 ≠ key) := by
  constructor
  · intro col hcol
    simp only [buildX, List.mem_map] at hcol
    obtain ⟨e, he, rfl⟩ := hcol
    refine ⟨by simp, ?_⟩
    intro c hc
    simp only [List.mem_map, List.mem_range] at hc
    obtain ⟨w, hw, rfl⟩ := hc
    rw [goodColmap] at he
    have hcomp := List.of_mem_filter he
    simp only [isCompleteCol, List.all_eq_true, List.mem_range] at hcomp
    exact hcomp w hw
  · rintro key ⟨w, hw, hnone⟩ e he heq
    rw [goodColmap] at he
    have hcomp := List.of_mem_filter he
    simp only [isCompleteCol, List.all_eq_true, List.mem_range] at hcomp
    have hsome := hcomp w hw
    rw [heq, hnone] at hsome
    exact absurd hsome (by decide)

/-- Witness for C1 on `dfPartial`: the column of location "08" misses week 1,
so its key labels no column of the output. -/
theorem build_matrix_completeness_witness :
    (1 < 33 ∧ cell dfPartial 1 (colKey "2023/2024" "08") = none) ∧
    ∀ e ∈ goodColmap dfPartial, colKey e.2.1 e.2.2 ≠ colKey "2023/2024" "08" :=
  ⟨⟨by decide, by decide⟩,
    (build_matrix_completeness dfPartial).2 (colKey "2023/2024" "08")
      ⟨1, by decide, by decide⟩⟩

/-- C6: column ids are not renumbered after the completeness drop — every
entry of the final ColumnMap is an entry of the initial sorted assignment
(same id, season and location), and the matrix's column labels are exactly
the retained ids. -/
theorem colmap_ids_preserved (df : List SRow) :
    (∀ e ∈ goodColmap df, e ∈ colmapAll df) ∧
    (buildX df).map Prod.fst = (goodColmap df).map Prod.fst := by
  refine ⟨fun e he => List.mem_of_mem_filter he, ?_⟩
  simp only [buildX, List.map_map]
  rfl

/-- Witness for C6 on `dfMiddleDrop`: after its middle column is dropped, the
entry of location "08" keeps the originally assigned id 2, and the matrix
columns are labelled `[0, 2]`. -/
theorem colmap_ids_preserved_witness :
    ((2, "2023/2024", "08") ∈ colmapAll dfMiddleDrop) ∧
    (goodColmap dfMiddleDrop).map Prod.fst = [0, 2] :=
  ⟨(colmap_ids_preserved dfMiddleDrop).1 (2, "2023/2024", "08") (by decide), by decide⟩

theorem dedupScan_subset :
    ∀ (seen : List String) (l : List (String × String)) (a : String × String),
      a ∈ dedupScan seen l → a ∈ l := by
  intro seen l
  induction l generalizing seen with
  | nil =>
    intro a ha
    exact absurd ha (by simp [dedupScan])
  | cons p ps ih =>
    intro a ha
    simp only [dedupScan] at ha
    split at ha
    · exact List.mem_cons_of_mem _ (ih seen a ha)
    · rcases List.mem_cons.1 ha with rfl | h
      · exact List.mem_cons_self _ _
      · exact List.mem_cons_of_mem _ (ih _ a h)

theorem dedupScan_covers :
    ∀ (seen : List String) (l : List (String × String)) (a : String × String),
      a ∈ l → colKey a.1 a.2 ∉ seen →
      ∃ b ∈ dedupScan seen l, colKey b.1 b.2 = colKey a.1 a.2 := by
  intro seen l
  induction l generalizing seen with
  | nil =>
    intro a ha _
    exact absurd ha (List.not_mem_nil a)
  | cons p ps ih =>
    intro a ha hna
    simp only [dedupScan]
    split
    next hseen =>
      rcases List.mem_cons.1 ha with rfl | h
      · exact absurd hseen hna
      · exact ih seen a h hna
    next hseen =>
      by_cases hk : colKey a.1 a.2 = colKey p.1 p.2
      · exact ⟨p, List.mem_cons_self _ _, hk.symm⟩
      · rcases List.mem_cons.1 ha with rfl | h
        · exact absurd rfl hk
        · obtain ⟨b, hb, hbk⟩ := ih (colKey p.1 p.2 :: seen) a h (by
            intro hmem
            rcases List.mem_cons.1 hmem with he | he
            · exact hk he
            · exact hna he)
          exact ⟨b, List.mem_cons_of_mem _ hb, hbk⟩

theorem dedupScan_keys_fresh_and_distinct :
    ∀ (seen : List String) (l : List (String × String)),
      (∀ b ∈ dedupScan seen l, colKey b.1 b.2 ∉ seen) ∧
      (dedupScan seen l).Pairwise (fun a b => colKey a.1 a.2 ≠ colKey b.1 b.2) := by
  intro seen l
  induction l generalizing seen with
  | nil =>
    refine ⟨fun b hb => absurd hb (by simp [dedupScan]), by simp [dedupScan]⟩
  | cons p ps ih =>
    simp only [dedupScan]
    split
    next hseen => exact ih seen
    next hseen =>
      obtain ⟨h1, h2⟩ := ih (colKey p.1 p.2 :: seen)
      constructor
      · intro b hb
        rcases List.mem_cons.1 hb with rfl | hb
        · exact hseen
        · intro hmem
          exact h1 b hb (List.mem_cons_of_mem _ hmem)
      · refine List.pairwise_cons.2 ⟨?_, h2⟩
        intro b hb heq
        refine h1 b hb ?_
        rw [← heq]
        exact List.mem_cons_self _ _

theorem dedupByColKey_nodup (l : List (String × String)) : (dedupByColKey l).Nodup := by
  have h := (dedupScan_keys_fresh_and_distinct [] l).2
  exact h.imp fun hne heq => hne (by rw [heq])

theorem dedupByColKey_mem_iff (l : List (String × String))
    (hinj : ∀ a ∈ l, ∀ b ∈ l, colKey a.1 a.2 = colKey b.1 b.2 → a = b) (a : String × String) :
    a ∈ dedupByColKey l ↔ a ∈ l := by
  constructor
  · exact dedupScan_subset [] l a
  · intro ha
    obtain ⟨b, hb, hk⟩ := dedupScan_covers [] l a ha (List.not_mem_nil _)
    have hbl := dedupScan_subset [] l b hb
    exact (hinj b hbl a ha hk) ▸ hb

/-- C3 counterexample: the claim fails as stated.  `dfCollide` holds the two
distinct pairs `("s__x", "yy")` and `("s", "x__yy")`, which collide on the
composite key `"s__x__yy"`; reversing the rows is a permutation, yet the
emitted ColumnMaps differ because `drop_duplicates` keeps whichever pair
appears first. -/
theorem colmap_not_row_order_independent :
    List.Perm dfCollide dfCollide.reverse ∧
    goodColmap dfCollide ≠ goodColmap dfCollide.reverse :=
  ⟨(List.reverse_perm dfCollide).symm, by decide⟩

theorem append_sep_injective :
    ∀ (a₁ a₂ b₁ b₂ : List Char), '_' ∉ a₁ → '_' ∉ a₂ →
      a₁ ++ '_' :: '_' :: b₁ = a₂ ++ '_' :: '_' :: b₂ → a₁ = a₂ ∧ b₁ = b₂ := by
  intro a₁
  induction a₁ with
  | nil =>
    intro a₂ b₁ b₂ _ ha₂ heq
    cases a₂ with
    | nil =>
      simp only [List.nil_append, List.cons.injEq, true_and] at heq
      exact ⟨rfl, heq⟩
    | cons c t =>
      simp only [List.nil_append, List.cons_append, List.cons.injEq] at heq
      exact absurd (heq.1 ▸ List.mem_cons_self c t) ha₂
  | cons c₁ t₁ ih =>
    intro a₂ b₁ b₂ ha₁ ha₂ heq
    cases a₂ with
    | nil =>
      simp only [List.nil_append, List.cons_append, List.cons.injEq] at heq
      exact absurd (heq.1.symm ▸ List.mem_cons_self c₁ t₁) ha₁
    | cons c₂ t₂ =>
      simp only [List.cons_append, List.cons.injEq] at heq
      obtain ⟨rfl, heq⟩ := heq
      obtain ⟨h₁, h₂⟩ := ih t₂ b₁ b₂
        (fun h => ha₁ (List.mem_cons_of_mem _ h))
        (fun h => ha₂ (List.mem_cons_of_mem _ h)) heq
      exact ⟨by rw [h₁], h₂⟩

/-- Sufficient condition for the injectivity hypothesis of the amended C3:
when the season fields contain no underscore character, the composite key
determines the pair. -/
theorem colKey_injective_of_no_underscore (a b : String × String)
    (ha₁ : '_' ∉ a.1.data) (hb₁ : '_' ∉ b.1.data)
    (h : colKey a.1 a.2 = colKey b.1 b.2) : a = b := by
  have hdata : a.1.data ++ '_' :: '_' :: a.2.data = b.1.data ++ '_' :: '_' :: b.2.data := by
    have := congrArg String.data h
    simpa [colKey, String.data_append] using this
  obtain ⟨h₁, h₂⟩ := append_sep_injective a.1.data b.1.data a.2.data b.2.data ha₁ hb₁ hdata
  exact Prod.ext (String.ext h₁) (String.ext h₂)

/-- C3 amended: whenever the composite key `season ⧺ "__" ⧺ location` is
injective on the (season, location) pairs of the prepared table — in
particular whenever the season fields contain no underscore character, by
`colKey_injective_of_no_underscore` — running the Matrix Builder on any
permutation of the rows yields the identical ColumnMap, both before and
after the completeness drop.  (A mere absence of `"__"` from each field is
not enough: `("a", "_bb")` and `("a_", "bb")` still collide on the key
`"a___bb"`.) -/
theorem colmap_stable_under_permutation (df1 df2 : List SRow)
    (hperm : List.Perm df1 df2)
    (hinj : ∀ a ∈ colPairs df1, ∀ b ∈ colPairs df1,
      colKey a.1 a.2 = colKey b.1 b.2 → a = b) :
    colmapAll df1 = colmapAll df2 ∧ goodColmap df1 = goodColmap df2 := by
  have hprep : List.Perm (prepRows df1) (prepRows df2) :=
    ((hperm.filter _).filter _).map _
  have hpairs : List.Perm (colPairs df1) (colPairs df2) := hprep.map _
  have hinj2 : ∀ a ∈ colPairs df2, ∀ b ∈ colPairs df2,
      colKey a.1 a.2 = colKey b.1 b.2 → a = b :=
    fun a ha b hb => hinj a (hpairs.mem_iff.2 ha) b (hpairs.mem_iff.2 hb)
  have hd : List.Perm (dedupByColKey (colPairs df1)) (dedupByColKey (colPairs df2)) := by
    refine (List.perm_ext_iff_of_nodup (dedupByColKey_nodup _) (dedupByColKey_nodup _)).2 ?_
    intro a
    rw [dedupByColKey_mem_iff _ hinj a, dedupByColKey_mem_iff _ hinj2 a, hpairs.mem_iff]
  have hs : sortedPairs df1 = sortedPairs df2 := by
    refine List.eq_of_perm_of_sorted
      ((List.perm_insertionSort keyLe _).trans
        (hd.trans (List.perm_insertionSort keyLe _).symm))
      (List.sorted_insertionSort keyLe _) (List.sorted_insertionSort keyLe _)
  have hca : colmapAll df1 = colmapAll df2 := by
    rw [colmapAll, colmapAll, hs]
  refine ⟨hca, ?_⟩
  have hcell : ∀ (w : Nat) (key : String),
      (cell df1 w key).isSome = (cell df2 w key).isSome := by
    intro w key
    have hv : List.Perm (cellValues df1 w key) (cellValues df2 w key) :=
      (hprep.filter _).filterMap _
    have hemp : (cellValues df1 w key).isEmpty = (cellValues df2 w key).isEmpty := by
      rw [Bool.eq_iff_iff, List.isEmpty_iff_length_eq_zero, List.isEmpty_iff_length_eq_zero,
        hv.length_eq]
    simp only [cell, hemp]
    cases (cellValues df2 w key).isEmpty <;> simp
  have hgood : ∀ e : Nat × String × String,
      isCompleteCol df1 (colKey e.2.1 e.2.2) = isCompleteCol df2 (colKey e.2.1 e.2.2) := by
    intro e
    simp only [isCompleteCol]
    rw [Bool.eq_iff_iff, List.all_eq_true, List.all_eq_true]
    constructor
    · intro H w hw
      rw [← hcell w (colKey e.2.1 e.2.2)]
      exact H w hw
    · intro H w hw
      rw [hcell w (colKey e.2.1 e.2.2)]
      exact H w hw
  rw [goodColmap, goodColmap, hca]
  exact List.filter_congr fun e _ => hgood e

/-- Witness for C3 amended on `dfStable` (no key collisions) against its
reversal. -/
theorem colmap_stable_under_permutation_witness :
    colmapAll dfStable = colmapAll dfStable.reverse ∧
    goodColmap dfStable = goodColmap dfStable.reverse :=
  colmap_stable_under_permutation dfStable dfStable.reverse
    (List.reverse_perm dfStable).symm (by decide)

end FluRepo
